import Mathlib

/-!
Verification of the channel-simulation and evaluation-orchestration pipeline
of the ASR (automatic speech recognition) RIR-defense scenario
(`example_scenarios/asr_rir_defense.py`).

Modelling conventions:
* Audio samples are modelled as exact rationals `ℚ`; a sample that the numpy
  code turns into IEEE NaN (e.g. `0.0 / 0.0` in the normalization step) is
  modelled by `none` in `Samp := Option ℚ` — NaN-propagating operations map
  `none` to `none`.
* The FFT-based convolution (`fft.rfft` / `fft.irfft` at length
  `s1 + s2 - 1`) is an exactness-preserving implementation of linear
  convolution, so it is embedded directly as linear convolution `conv`.
* File I/O (`wav.read`) and the external collaborators (model, datasets,
  attack, metrics logger) are opaque: they are supplied by an `Env` record,
  and the orchestrator is embedded as a function producing an event trace
  plus either an error or the accumulated metrics state.
* numpy's in-place array mutation is modelled for the frame-condition claim
  by an explicit heap of buffers (`Heap`), with fresh allocation for the
  operations that return new arrays and in-place writes for `/=` and `*=`.
-/

/-- A sample value: `some q` is an ordinary (finite) float sample, `none`
models IEEE NaN as produced by `0.0 / 0.0` in the normalization step. -/
abbrev Samp := Option ℚ

instance {ε α : Type} [DecidableEq ε] [DecidableEq α] : DecidableEq (Except ε α) :=
  fun x y =>
    match x, y with
    | .ok a, .ok b =>
        if h : a = b then isTrue (by rw [h]) else isFalse (fun hc => h (Except.ok.inj hc))
    | .error a, .error b =>
        if h : a = b then isTrue (by rw [h]) else isFalse (fun hc => h (Except.error.inj hc))
    | .ok a, .error b => isFalse (fun hc => Except.noConfusion hc)
    | .error a, .ok b => isFalse (fun hc => Except.noConfusion hc)

/-- Full-scale int16 amplitude `2 ** (16 - 1) - 1 = 32767` used by the
normalization step of `create_speech_rir`. -/
def int16Scale : ℚ := 2 ^ (16 - 1) - 1

/-- `np.clip(v, a_min=-(2 ** (16 - 1)), a_max=2 ** (16 - 1) - 1)` on one
(non-NaN) sample. -/
def clip16 (v : ℚ) : ℚ := min ((2 : ℚ) ^ (16 - 1) - 1) (max (-((2 : ℚ) ^ (16 - 1))) v)

/-- One sample of the in-place division `ret /= m`: a real sample divided by
a zero maximum is NaN (in the reachable states the sample is then itself `0`,
and `0.0 / 0.0` is NaN in numpy). -/
def normSamp (m v : ℚ) : Samp := if m = 0 then none else some (v / m)

/-- `np.amax(np.absolute(l))` for a list of real samples (the `0` seed is
inert: absolute values are nonnegative, and the list is nonempty whenever
the convolution length is positive). -/
def maxAbs (l : List ℚ) : ℚ := l.foldr (fun v m => max |v| m) 0

/-- Linear convolution of `x` and `h`, of length `x.length + h.length - 1`:
the exact value computed by `fft.irfft(fft.rfft(h, n=shape) * fft.rfft(x, n=shape), n=shape)`
with `shape = s1 + s2 - 1`. -/
def conv (x h : List ℚ) : List ℚ :=
  (List.range (x.length + h.length - 1)).map (fun n =>
    ((List.range (n + 1)).map (fun k => x.getD k 0 * h.getD (n - k) 0)).sum)

/-- In-place stage `ret /= np.amax(np.absolute(ret))`, NaN-propagating. -/
def rirNormalize (m : ℚ) (l : List Samp) : List Samp :=
  l.map (fun s => s.bind (fun v => normSamp m v))

/-- In-place stage `ret *= 2 ** (16 - 1) - 1`, NaN-propagating. -/
def rirScale (l : List Samp) : List Samp :=
  l.map (Option.map (fun v => v * int16Scale))

/-- Stage `ret = np.clip(ret, ...)` (returns a fresh array), NaN-propagating
(numpy's `clip` maps NaN to NaN). -/
def rirClip (l : List Samp) : List Samp :=
  l.map (Option.map clip16)

/-- Stage `ret = np.pad(ret, (0, 100000), 'constant')` (fresh array). -/
def rirPad (l : List Samp) : List Samp :=
  l ++ List.replicate 100000 (some 0)

/-- The per-waveform body of `create_speech_rir`: convolve with the RIR in
Fourier space, normalize by the maximum absolute value, scale to int16
full-scale, clip, pad with 100000 zeros and truncate to the input length. -/
def apply_rir_single (x rir : List ℚ) : List Samp :=
  let s1 := x.length
  let ret0 := conv x rir
  let m := maxAbs ret0
  let ret1 := rirNormalize m (ret0.map some)
  let ret2 := rirScale ret1
  let ret3 := rirClip ret2
  (rirPad ret3).take s1

/-- `create_speech_rir(audios, rir)`: apply the RIR convolution pipeline to
every waveform of the batch independently. -/
def create_speech_rir (audios : List (List ℚ)) (rir : List ℚ) : List (List Samp) :=
  audios.map (fun x => apply_rir_single x rir)

/-- `Readrir(num_room)` reads the stored impulse-response file with index
`num_room + 1000 + 1`; the wav read itself is external I/O, so the function
is embedded as the deterministic file-index resolution, with the stored
waveforms supplied by the environment (`Env.rirData`). -/
def Readrir (num_room : ℕ) : ℕ := num_room + 1000 + 1

/-- The transfer-function descriptor built by `load_audio_channel`
(numerator and denominator coefficients of the `LFilter`). -/
structure ChannelFilter where
  numerator_coef : List ℚ
  denominator_coef : List ℚ
  deriving DecidableEq, Repr

/-- Warning-level diagnostics that `load_audio_channel` can log. -/
inductive ChannelWarning where
  | identityChannel
  | attenuationOutOfRange
  deriving DecidableEq, Repr

/-- The `ValueError` message raised by `load_audio_channel` for a negative
delay: `f"delay {delay} must be a nonnegative number (of samples)"`. -/
def delayErrorMsg (delay : ℤ) : String :=
  "delay " ++ toString delay ++ " must be a nonnegative number (of samples)"

/-- `load_audio_channel(delay, attenuation)`: raises `ValueError` on a
negative delay; returns the identity filter (with a warning) when
`delay == 0 or attenuation == 0`; otherwise builds the two-tap FIR echo
filter of length `delay + 1`.  The choice between the PyTorch and the scipy
`LFilter` wrapper is external (an `ImportError` fallback) and does not
change the coefficients, so only the coefficients are modelled. -/
def load_audio_channel (delay : ℤ) (attenuation : ℚ) :
    Except String (ChannelFilter × List ChannelWarning) :=
  if delay < 0 then
    .error (delayErrorMsg delay)
  else if delay = 0 ∨ attenuation = 0 then
    .ok (⟨[1], [1]⟩, [.identityChannel])
  else
    let warns := if ¬(-1 ≤ attenuation ∧ attenuation ≤ 1) then
      [ChannelWarning.attenuationOutOfRange] else []
    let d := delay.toNat
    let numerator_coef := ((List.replicate (d + 1) (0 : ℚ)).set 0 1).set d attenuation
    let denominator_coef := (List.replicate (d + 1) (0 : ℚ)).set 0 1
    .ok (⟨numerator_coef, denominator_coef⟩, warns)

/-! ## Heap model of `create_speech_rir`

numpy arrays are mutable buffers.  To settle the frame condition (the input
batch is never written), the loop body of `create_speech_rir` is replayed
over an explicit heap: `fft.irfft` allocates a fresh buffer, the in-place
`ret /= ...` and `ret *= ...` statements write to that buffer, and
`np.clip` and `np.pad` allocate fresh buffers (rebinding the local `ret`);
the final `ret[:s1]` is a view of the pad buffer, copied into the fresh
output array by `np.array(speech_rir)`. -/

/-- The numpy heap: buffers of samples addressed by allocation order. -/
abbrev Heap := List (List Samp)

/-- Read the buffer with id `i`. -/
def Heap.readBuf (h : Heap) (i : ℕ) : List Samp := h.getD i []

/-- Overwrite the buffer with id `i` in place. -/
def Heap.writeBuf (h : Heap) (i : ℕ) (v : List Samp) : Heap := h.set i v

/-- Allocate a fresh buffer holding `v`; returns the new heap and the fresh
buffer's id. -/
def Heap.allocBuf (h : Heap) (v : List Samp) : Heap × ℕ := (h ++ [v], h.length)

/-- Extract the rational values of a real-valued buffer (the dataset
waveforms and the RIR are real; `none` does not occur in them). -/
def valsOf (b : List Samp) : List ℚ := b.map (fun s => s.getD 0)

/-- One iteration of the `create_speech_rir` loop over the heap, for the
waveform in buffer `audioIdx` and the RIR in buffer `rirIdx`: returns the
heap after the iteration and the id of the buffer the appended `ret[:s1]`
view is based on. -/
def rirLoopBody (h : Heap) (audioIdx rirIdx : ℕ) : Heap × ℕ :=
  let x := valsOf (h.readBuf audioIdx)
  let r := valsOf (h.readBuf rirIdx)
  -- ret = fft.irfft(sp1 * sp2, n=shape): fresh buffer
  let a1 := h.allocBuf ((conv x r).map some)
  let retIdx := a1.2
  let m := maxAbs (conv x r)
  -- ret /= np.amax(np.absolute(ret)): in-place
  let h2 := a1.1.writeBuf retIdx (rirNormalize m (a1.1.readBuf retIdx))
  -- ret *= 2 ** (16 - 1) - 1: in-place
  let h3 := h2.writeBuf retIdx (rirScale (h2.readBuf retIdx))
  -- ret = np.clip(ret, ...): fresh buffer, ret rebound
  let a4 := h3.allocBuf (rirClip (h3.readBuf retIdx))
  -- ret = np.pad(ret, (0, 100000), 'constant'): fresh buffer, ret rebound
  let a5 := a4.1.allocBuf (rirPad (a4.1.readBuf a4.2))
  -- ret = ret[:s1]: a view based on the pad buffer
  (a5.1, a5.2)

/-- The whole `create_speech_rir` loop over the heap: the batch is the list
of input buffer ids; returns the final heap and the ids of the buffers
backing the collected per-waveform results, in loop order. -/
def create_speech_rir_heap (h : Heap) (audioIdxs : List ℕ) (rirIdx : ℕ) :
    Heap × List ℕ :=
  match audioIdxs with
  | [] => (h, [])
  | a :: rest =>
    let st := rirLoopBody h a rirIdx
    let tl := create_speech_rir_heap st.1 rest rirIdx
    (tl.1, st.2 :: tl.2)

/-! ## Orchestrator: `AutomaticSpeechRecognition._evaluate`

The external collaborators (model, datasets, attack, label targeter, metrics
logger, sample exporter) are opaque; they are supplied by an `Env` record.
The orchestrator is embedded as a function from the configuration, the skip
flags and the environment to the trace of collaborator calls it performs,
paired with either the raised error or the accumulated metrics state. -/

/-- One `metrics_logger.update_task(y, y_pred, ...)` call, with the flags it
was made with.  Labels and predictions are opaque (naturals). -/
structure TaskUpdate where
  y : ℕ
  yPred : ℕ
  adversarial : Bool
  targeted : Bool
  deriving DecidableEq, Repr

/-- The metrics logger's accumulated state: the task updates in order, and
the number of `update_perturbation` calls.  `results()` returns this state. -/
structure MetricsState where
  taskUpdates : List TaskUpdate
  perturbationUpdates : ℕ
  deriving DecidableEq, Repr

/-- The externally observable calls `_evaluate` makes, in order. -/
inductive Event where
  | loadModel
  | loadAudioChannel
  | loadDefenseInternal
  | loadTrainDataset
  | fitEstimator
  | loadDefenseWrapper
  | readRirFile (fileIndex : ℕ)
  | loadTestDataset
  | loadAdvDataset
  | loadAttack
  | loadLabelTargeter
  | applyRir (rir : List ℚ)
  | predictCall (adversarial : Bool)
  | attackGenerate
  | updateTaskEvent (adversarial targeted : Bool)
  | updatePerturbationEvent
  | exportSample
  | logTaskEvent (adversarial targeted : Bool)
  deriving DecidableEq, Repr

/-- `Event.readRirFile _` recognizer. -/
def Event.isReadRir : Event → Bool
  | .readRirFile _ => true
  | _ => false

/-- `Event.applyRir _` recognizer. -/
def Event.isApplyRir : Event → Bool
  | .applyRir _ => true
  | _ => false

/-- The RIR waveform carried by an `applyRir` event. -/
def Event.rirValue : Event → Option (List ℚ)
  | .applyRir r => some r
  | _ => none

/-- Attack construction / generation / adversarial-dataset events (the calls
that must not happen when the attack phase is skipped). -/
def Event.isAttackWork : Event → Bool
  | .loadAttack => true
  | .attackGenerate => true
  | .loadAdvDataset => true
  | _ => false

/-- The `adhoc.audio_channel` sub-configuration: which keys are present, and
the values passed to `load_audio_channel`. -/
structure AudioChannelConfig where
  hasDelayKey : Bool
  hasAttenuationKey : Bool
  delay : ℤ
  attenuation : ℚ

/-- The parts of the scenario configuration dict that `_evaluate` reads. -/
structure Config where
  modelFit : Bool
  defenseType : Option String
  audioChannel : Option AudioChannelConfig
  skipAdversarial : Bool
  attackType : Option String
  targeted : Bool
  useLabel : Bool
  exportSamples : Option ℕ
  batchSize : ℕ

/-- The opaque external collaborators: datasets as already-batched lists,
the stored RIR files as a map from file index to waveform, and the model,
attack and label-targeter behaviours as opaque functions. -/
structure Env where
  benignData : List (List (List ℚ) × ℕ)
  attackData : List (List (List ℚ) × ℕ)
  advData : List ((List (List ℚ) × List (List ℚ)) × (ℕ × ℕ))
  rirData : ℕ → List ℚ
  predict : List (List Samp) → ℕ
  attackGen : List (List ℚ) → Option ℕ → List (List ℚ)
  targetGen : ℕ → ℕ

/-- `load_dataset(..., num_batches=num_eval_batches, ...)`: `None` keeps the
whole split, `some n` keeps the first `n` batches. -/
def takeBatches {α : Type} (numBatches : Option ℕ) (l : List α) : List α :=
  match numBatches with
  | none => l
  | some n => l.take n

/-- The audio-channel injection step: if `adhoc.audio_channel` is present,
check it has the `delay` and `attenuation` keys (in that order), then build
the channel with `load_audio_channel`, propagating its `ValueError`. -/
def channelInjection (cfg : Config) : Except String (List Event) :=
  match cfg.audioChannel with
  | none => .ok []
  | some ac =>
    if ¬ac.hasDelayKey then .error "audio_channel must have key delay"
    else if ¬ac.hasAttenuationKey then .error "audio_channel must have key attenuation"
    else
      match load_audio_channel ac.delay ac.attenuation with
      | .error e => .error e
      | .ok _ => .ok [.loadAudioChannel]

/-- The internal-defense wrapping step (`Preprocessor` / `Postprocessor`). -/
def defenseInternalEvents (cfg : Config) : List Event :=
  if cfg.defenseType = some "Preprocessor" ∨ cfg.defenseType = some "Postprocessor" then
    [.loadDefenseInternal]
  else []

/-- The optional fit step: load the train dataset, then fit either through a
`Trainer` defense wrapper or directly on the estimator. -/
def fitEvents (cfg : Config) : List Event :=
  if cfg.modelFit then
    Event.loadTrainDataset ::
      (if cfg.defenseType = some "Trainer" then [Event.loadDefenseWrapper, Event.fitEstimator]
       else [Event.fitEstimator])
  else []

/-- The `Transform` defense step. -/
def transformEvents (cfg : Config) : List Event :=
  if cfg.defenseType = some "Transform" then [.loadDefenseWrapper] else []

/-- One benign-phase batch: apply the RIR channel to the batch, run
inference on the result, record the task metric. -/
def benignBatch (rir : List ℚ) (env : Env) (b : List (List ℚ) × ℕ) :
    List Event × TaskUpdate :=
  ([.applyRir rir, .predictCall false, .updateTaskEvent false false],
   ⟨b.2, env.predict (create_speech_rir b.1 rir), false, false⟩)

/-- The benign phase: load the test dataset, process every batch, then log
the accumulated benign task metric. -/
def benignPhase (rir : List ℚ) (env : Env) (batches : List (List (List ℚ) × ℕ)) :
    List Event × List TaskUpdate :=
  (Event.loadTestDataset ::
     ((batches.map (fun b => (benignBatch rir env b).1)).flatten
       ++ [Event.logTaskEvent false false]),
   batches.map (fun b => (benignBatch rir env b).2))

/-- Whether a sample exporter is constructed (`export_samples` set and
positive). -/
def exporterActive (cfg : Config) : Bool :=
  match cfg.exportSamples with
  | some n => decide (0 < n)
  | none => false

/-- One attack-phase batch in `preloaded` mode: replay the stored
adversarial waveform, apply the RIR channel, run inference, update the task
metric (twice when targeted), update the perturbation metric, and export if
a quota is configured. -/
def attackBatchPre (cfg : Config) (rir : List ℚ) (env : Env)
    (b : (List (List ℚ) × List (List ℚ)) × (ℕ × ℕ)) :
    List Event × List TaskUpdate :=
  let xAdv := b.1.2
  let y := b.2.1
  let yPredAdv := env.predict (create_speech_rir xAdv rir)
  ([.applyRir rir, .predictCall true, .updateTaskEvent true false]
     ++ (if cfg.targeted then [Event.updateTaskEvent true true] else [])
     ++ [.updatePerturbationEvent]
     ++ (if exporterActive cfg then [Event.exportSample] else []),
   ⟨y, yPredAdv, true, false⟩ ::
     (if cfg.targeted then [(⟨b.2.2, yPredAdv, true, true⟩ : TaskUpdate)] else []))

/-- One attack-phase batch in live-generation mode: generate the adversarial
waveform (with the true label when `use_label`, with a generated target
label when targeted, untargeted otherwise), then proceed as in the
preloaded mode. -/
def attackBatchGen (cfg : Config) (rir : List ℚ) (env : Env)
    (b : List (List ℚ) × ℕ) : List Event × List TaskUpdate :=
  let x := b.1
  let y := b.2
  let xAdv :=
    if cfg.useLabel then env.attackGen x (some y)
    else if cfg.targeted then env.attackGen x (some (env.targetGen y))
    else env.attackGen x none
  let yPredAdv := env.predict (create_speech_rir xAdv rir)
  ([Event.attackGenerate, .applyRir rir, .predictCall true, .updateTaskEvent true false]
     ++ (if cfg.targeted then [Event.updateTaskEvent true true] else [])
     ++ [.updatePerturbationEvent]
     ++ (if exporterActive cfg then [Event.exportSample] else []),
   ⟨y, yPredAdv, true, false⟩ ::
     (if cfg.targeted then [(⟨env.targetGen y, yPredAdv, true, true⟩ : TaskUpdate)] else []))

/-- The attack phase: load either the precomputed adversarial dataset or
the attack plus the clean test dataset (plus the label targeter when
targeted), process every batch, then log the adversarial task metric (and
the targeted sub-metric when applicable).  The third component counts the
`update_perturbation` calls. -/
def attackPhase (cfg : Config) (numEvalBatches : Option ℕ) (rir : List ℚ)
    (env : Env) : List Event × List TaskUpdate × ℕ :=
  let per :=
    if cfg.attackType = some "preloaded" then
      (takeBatches numEvalBatches env.advData).map (attackBatchPre cfg rir env)
    else
      (takeBatches numEvalBatches env.attackData).map (attackBatchGen cfg rir env)
  let setup :=
    if cfg.attackType = some "preloaded" then [Event.loadAdvDataset]
    else
      [Event.loadAttack, Event.loadTestDataset]
        ++ (if cfg.targeted then [Event.loadLabelTargeter] else [])
  (setup ++ (per.map Prod.fst).flatten
     ++ Event.logTaskEvent true false ::
        (if cfg.targeted then [Event.logTaskEvent true true] else []),
   (per.map Prod.snd).flatten, per.length)

/-- `AutomaticSpeechRecognition._evaluate(config, num_eval_batches,
skip_benign, skip_attack, skip_misclassified)`: the trace of collaborator
calls, paired with the raised `ValueError` or the returned results. -/
def evaluate (cfg : Config) (numEvalBatches : Option ℕ)
    (skip_benign skip_attack skip_misclassified : Bool) (env : Env) :
    List Event × Except String MetricsState :=
  if skip_misclassified then
    ([], .error "skip_misclassified must not be set for ASR scenario")
  else
    match channelInjection cfg with
    | .error e => ([Event.loadModel], .error e)
    | .ok chEvents =>
      let pre := Event.loadModel ::
        (chEvents ++ defenseInternalEvents cfg ++ fitEvents cfg ++ transformEvents cfg)
      let rirIndex := Readrir 0
      let rir := env.rirData rirIndex
      let bp :=
        if skip_benign then ([], [])
        else benignPhase rir env (takeBatches numEvalBatches env.benignData)
      let tr := pre ++ Event.readRirFile rirIndex :: bp.1
      if skip_attack then (tr, .ok ⟨bp.2, 0⟩)
      else if cfg.skipAdversarial then (tr, .ok ⟨bp.2, 0⟩)
      else
        let ap := attackPhase cfg numEvalBatches rir env
        (tr ++ ap.1, .ok ⟨bp.2 ++ ap.2.1, ap.2.2⟩)

/-- A minimal concrete configuration: no audio channel, no defense, no fit,
live (non-preloaded) untargeted attack, no export quota. -/
def cfgW : Config :=
  { modelFit := false, defenseType := none, audioChannel := none,
    skipAdversarial := false, attackType := none, targeted := false,
    useLabel := false, exportSamples := none, batchSize := 1 }

/-- A minimal concrete environment: one benign batch with one one-sample
waveform, a one-sample stored RIR for every file index, and constant
collaborators. -/
def envW : Env :=
  { benignData := [([[1]], 5)], attackData := [], advData := [],
    rirData := fun _ => [1], predict := fun _ => 0,
    attackGen := fun x _ => x, targetGen := fun y => y }

/-! ## Lemmas about the convolution pipeline -/

lemma getD_singleton_of_pos (a : ℚ) (j : ℕ) (hj : 1 ≤ j) : [a].getD j 0 = 0 := by
  cases j with
  | zero => omega
  | succ j' => simp [List.getD]

lemma conv_length (x h : List ℚ) : (conv x h).length = x.length + h.length - 1 := by
  simp [conv]

/-- Convolution with the one-sample impulse `[1]` is the identity. -/
lemma conv_single (x : List ℚ) : conv x [1] = x := by
  have hsum : ∀ n : ℕ,
      ((List.range (n + 1)).map (fun k => x.getD k 0 * [(1 : ℚ)].getD (n - k) 0)).sum
        = x.getD n 0 := by
    intro n
    rw [List.sum_range_succ]
    have hz : ((List.range n).map
        (fun k => x.getD k 0 * [(1 : ℚ)].getD (n - k) 0)).sum = 0 := by
      apply List.sum_eq_zero
      intro a ha
      obtain ⟨k, hk, rfl⟩ := List.mem_map.mp ha
      have hk' : k < n := List.mem_range.mp hk
      rw [getD_singleton_of_pos _ _ (by omega), mul_zero]
    rw [hz, zero_add]
    simp [List.getD]
  apply List.ext_getElem
  · simp [conv]
  · intro i h1 h2
    have hi : i < x.length := by simpa [conv] using h1
    simp only [conv, List.length_singleton, List.getElem_map, List.getElem_range]
    rw [hsum i, List.getD_eq_getElem _ _ hi]

lemma maxAbs_nonneg (l : List ℚ) : 0 ≤ maxAbs l := by
  induction l with
  | nil => simp [maxAbs]
  | cons a l ih => simp only [maxAbs, List.foldr_cons] at *; positivity

lemma le_maxAbs {l : List ℚ} {v : ℚ} (hv : v ∈ l) : |v| ≤ maxAbs l := by
  induction l with
  | nil => cases hv
  | cons a l ih =>
    rcases List.mem_cons.mp hv with rfl | hv'
    · simp [maxAbs, le_max_left]
    · have := ih hv'
      simp only [maxAbs, List.foldr_cons] at *
      exact le_max_of_le_right this

lemma maxAbs_pos {l : List ℚ} {v : ℚ} (hv : v ∈ l) (hv0 : v ≠ 0) : 0 < maxAbs l :=
  lt_of_lt_of_le (abs_pos.mpr hv0) (le_maxAbs hv)

lemma clip16_eq_self {v : ℚ} (h : |v| ≤ (2 : ℚ) ^ (16 - 1) - 1) : clip16 v = v := by
  rw [abs_le] at h
  unfold clip16
  rw [max_eq_right (by linarith [h.1]), min_eq_right h.2]

lemma apply_rir_single_length (x rir : List ℚ) (h1 : 1 ≤ x.length)
    (h2 : 1 ≤ rir.length) : (apply_rir_single x rir).length = x.length := by
  simp only [apply_rir_single, rirPad, rirClip, rirScale, rirNormalize,
    List.length_take, List.length_append, List.length_map, conv_length,
    List.length_replicate]
  omega

/-- The per-waveform pipeline with the single-sample RIR `[1.0]`: the result
is the input rescaled to int16 full-scale, provided the input has a nonzero
sample. -/
lemma apply_rir_single_impulse (x : List ℚ) (hx : ∃ v ∈ x, v ≠ 0) :
    apply_rir_single x [1] = x.map (fun v => some (v / maxAbs x * int16Scale)) := by
  obtain ⟨w, hw, hw0⟩ := hx
  have hm : 0 < maxAbs x := maxAbs_pos hw hw0
  have hstages : rirClip (rirScale (rirNormalize (maxAbs x) (x.map some)))
      = x.map (fun v => some (v / maxAbs x * int16Scale)) := by
    simp only [rirNormalize, rirScale, rirClip, List.map_map]
    apply List.map_congr_left
    intro v hv
    have hv1 : |v / maxAbs x| ≤ 1 := by
      rw [abs_div, abs_of_pos hm, div_le_one hm]
      exact le_maxAbs hv
    have hbound : |v / maxAbs x * int16Scale| ≤ (2 : ℚ) ^ (16 - 1) - 1 := by
      rw [abs_mul]
      calc |v / maxAbs x| * |int16Scale| ≤ 1 * |int16Scale| := by
            exact mul_le_mul_of_nonneg_right hv1 (abs_nonneg _)
        _ = (2 : ℚ) ^ (16 - 1) - 1 := by norm_num [int16Scale]
    simp [Function.comp, normSamp, hm.ne', clip16_eq_self hbound]
  have hL : (x.map (fun v => some (v / maxAbs x * int16Scale))).length = x.length := by
    simp
  simp only [apply_rir_single, conv_single, rirPad]
  rw [hstages, List.take_append_of_le_length (le_of_eq hL.symm),
    List.take_of_length_le (le_of_eq hL)]

lemma getD_set_self {α : Type} (v d : α) :
    ∀ (L : List α) (i : ℕ), i < L.length → (L.set i v).getD i d = v := by
  intro L
  induction L with
  | nil => intro i hi; simp at hi
  | cons a t ih =>
    intro i hi
    cases i with
    | zero => simp [List.getD]
    | succ i' => simpa [List.getD] using ih i' (by simpa using hi)

lemma getD_replicate_lt {α : Type} (x d : α) :
    ∀ (n i : ℕ), i < n → (List.replicate n x).getD i d = x := by
  intro n
  induction n with
  | zero => intro i hi; omega
  | succ n' ih =>
    intro i hi
    cases i with
    | zero => simp [List.replicate_succ, List.getD]
    | succ i' => simpa [List.replicate_succ, List.getD] using ih i' (by omega)

/-! ## Lemmas about the heap model -/

lemma getD_set_ne {α : Type} (v d : α) :
    ∀ (L : List α) (i j : ℕ), i ≠ j → (L.set i v).getD j d = L.getD j d := by
  intro L
  induction L with
  | nil => intro i j _; simp
  | cons a t ih =>
    intro i j hij
    cases i with
    | zero =>
      cases j with
      | zero => omega
      | succ j' => simp [List.getD]
    | succ i' =>
      cases j with
      | zero => simp [List.getD]
      | succ j' => simpa [List.getD] using ih i' j' (by omega)

lemma getD_append_lt {α : Type} (d : α) :
    ∀ (L M : List α) (j : ℕ), j < L.length → (L ++ M).getD j d = L.getD j d := by
  intro L
  induction L with
  | nil => intro M j hj; simp at hj
  | cons a t ih =>
    intro M j hj
    cases j with
    | zero => simp [List.getD]
    | succ j' => simpa [List.getD] using ih M j' (by simpa using hj)

/-- One loop iteration never writes an already-existing buffer, only the
fresh ones it allocates; the heap only grows; the returned view is based on
a freshly allocated buffer. -/
lemma rirLoopBody_spec (h : Heap) (aIdx rIdx : ℕ) :
    (∀ j, j < h.length → ((rirLoopBody h aIdx rIdx).1).readBuf j = h.readBuf j) ∧
      h.length ≤ ((rirLoopBody h aIdx rIdx).1).length ∧
      h.length ≤ (rirLoopBody h aIdx rIdx).2 := by
  refine ⟨?_, ?_, ?_⟩
  · intro j hj
    simp only [rirLoopBody, Heap.allocBuf, Heap.writeBuf, Heap.readBuf]
    rw [getD_append_lt, getD_append_lt, getD_set_ne, getD_set_ne, getD_append_lt]
    · exact hj
    · omega
    · omega
    · simp; omega
    · simp; omega
  · simp only [rirLoopBody, Heap.allocBuf, Heap.writeBuf, Heap.readBuf]
    simp
  · simp only [rirLoopBody, Heap.allocBuf, Heap.writeBuf, Heap.readBuf]
    simp

/-- The whole loop leaves every pre-existing buffer untouched, and every
output buffer id is fresh (allocated during the call). -/
lemma create_speech_rir_heap_spec (rIdx : ℕ) :
    ∀ (idxs : List ℕ) (h : Heap),
      (∀ j, j < h.length →
        ((create_speech_rir_heap h idxs rIdx).1).readBuf j = h.readBuf j) ∧
      h.length ≤ ((create_speech_rir_heap h idxs rIdx).1).length ∧
      ∀ o ∈ (create_speech_rir_heap h idxs rIdx).2, h.length ≤ o := by
  intro idxs
  induction idxs with
  | nil => intro h; simp [create_speech_rir_heap]
  | cons a rest ih =>
    intro h
    obtain ⟨hframe, hgrow, hout⟩ := rirLoopBody_spec h a rIdx
    obtain ⟨ihframe, ihgrow, ihout⟩ := ih (rirLoopBody h a rIdx).1
    refine ⟨?_, ?_, ?_⟩
    · intro j hj
      simp only [create_speech_rir_heap]
      rw [ihframe j (lt_of_lt_of_le hj hgrow), hframe j hj]
    · simp only [create_speech_rir_heap]
      exact le_trans hgrow ihgrow
    · intro o ho
      simp only [create_speech_rir_heap, List.mem_cons] at ho
      rcases ho with rfl | ho'
      · exact hout
      · exact le_trans hgrow (ihout o ho')

/-! ## Lemmas about the orchestrator trace -/

lemma channelInjection_ok {cfg : Config} {l : List Event}
    (h : channelInjection cfg = .ok l) : l = [] ∨ l = [Event.loadAudioChannel] := by
  unfold channelInjection at h
  split at h
  · left; exact (Except.ok.inj h).symm
  · split at h
    · exact Except.noConfusion h
    · split at h
      · exact Except.noConfusion h
      · split at h
        · exact Except.noConfusion h
        · right; exact (Except.ok.inj h).symm

lemma mem_defenseInternalEvents {cfg : Config} {e : Event}
    (h : e ∈ defenseInternalEvents cfg) : e = .loadDefenseInternal := by
  unfold defenseInternalEvents at h
  split at h <;> simp_all

lemma mem_fitEvents {cfg : Config} {e : Event} (h : e ∈ fitEvents cfg) :
    e = .loadTrainDataset ∨ e = .loadDefenseWrapper ∨ e = .fitEstimator := by
  unfold fitEvents at h
  split at h
  · rcases List.mem_cons.mp h with rfl | h'
    · exact Or.inl rfl
    · split at h'
      · simp only [List.mem_cons, List.mem_singleton, List.not_mem_nil,
          or_false] at h'
        rcases h' with rfl | rfl
        · exact Or.inr (Or.inl rfl)
        · exact Or.inr (Or.inr rfl)
      · simp only [List.mem_singleton] at h'
        rcases h' with rfl
        exact Or.inr (Or.inr rfl)
  · simp_all

lemma mem_transformEvents {cfg : Config} {e : Event}
    (h : e ∈ transformEvents cfg) : e = .loadDefenseWrapper := by
  unfold transformEvents at h
  split at h <;> simp_all

/-- Every event of the pre-phase part of the trace (model load, channel
injection, defenses, fit) is neither a RIR read, nor a RIR application, nor
attack work. -/
lemma pre_trace_tags {cfg : Config} {chEvents : List Event}
    (hch : channelInjection cfg = .ok chEvents) :
    ∀ e ∈ Event.loadModel ::
        (chEvents ++ defenseInternalEvents cfg ++ fitEvents cfg ++ transformEvents cfg),
      e.isReadRir = false ∧ e.isApplyRir = false ∧ e.isAttackWork = false := by
  intro e he
  rcases List.mem_cons.mp he with rfl | h'
  · exact ⟨rfl, rfl, rfl⟩
  · simp only [List.mem_append] at h'
    rcases h' with ((hc | hd) | hf) | ht
    · rcases channelInjection_ok hch with rfl | rfl
      · cases hc
      · rcases List.mem_singleton.mp hc with rfl
        exact ⟨rfl, rfl, rfl⟩
    · rcases mem_defenseInternalEvents hd with rfl
      exact ⟨rfl, rfl, rfl⟩
    · rcases mem_fitEvents hf with rfl | rfl | rfl <;> exact ⟨rfl, rfl, rfl⟩
    · rcases mem_transformEvents ht with rfl
      exact ⟨rfl, rfl, rfl⟩

/-- Every benign-phase event is neither a RIR read nor attack work, and any
RIR application in it applies exactly the RIR the phase was given. -/
lemma benignPhase_tags {rir : List ℚ} {env : Env}
    {bs : List (List (List ℚ) × ℕ)} :
    ∀ e ∈ (benignPhase rir env bs).1,
      e.isReadRir = false ∧ e.isAttackWork = false ∧
        (e.isApplyRir = true → e.rirValue = some rir) := by
  intro e he
  cases e <;>
    simp_all [benignPhase, benignBatch, Event.isReadRir, Event.isAttackWork,
      Event.isApplyRir, Event.rirValue] <;>
    · obtain ⟨l, ⟨h1, rfl⟩, hel⟩ := he
      simp_all

/-- All benign-phase task updates are non-adversarial. -/
lemma benignPhase_updates {rir : List ℚ} {env : Env}
    {bs : List (List (List ℚ) × ℕ)} :
    ∀ u ∈ (benignPhase rir env bs).2, u.adversarial = false := by
  intro u hu
  simp only [benignPhase, benignBatch, List.mem_map] at hu
  obtain ⟨b, _, rfl⟩ := hu
  rfl

/-- Tags of the events of one preloaded-mode attack batch. -/
lemma attackBatchPre_tags {cfg : Config} {rir : List ℚ} {env : Env}
    {b : (List (List ℚ) × List (List ℚ)) × (ℕ × ℕ)} :
    ∀ e ∈ (attackBatchPre cfg rir env b).1,
      e.isReadRir = false ∧ (e.isApplyRir = true → e.rirValue = some rir) := by
  intro e he
  by_cases hT : cfg.targeted = true <;>
    by_cases hE : exporterActive cfg = true <;>
      cases e <;>
        simp_all [attackBatchPre, Event.isReadRir, Event.isApplyRir, Event.rirValue]

/-- Tags of the events of one live-generation attack batch. -/
lemma attackBatchGen_tags {cfg : Config} {rir : List ℚ} {env : Env}
    {b : List (List ℚ) × ℕ} :
    ∀ e ∈ (attackBatchGen cfg rir env b).1,
      e.isReadRir = false ∧ (e.isApplyRir = true → e.rirValue = some rir) := by
  intro e he
  by_cases hT : cfg.targeted = true <;>
    by_cases hE : exporterActive cfg = true <;>
      cases e <;>
        simp_all [attackBatchGen, Event.isReadRir, Event.isApplyRir, Event.rirValue]

/-- Every attack-phase event is not a RIR read, and any RIR application in
it applies exactly the RIR the phase was given. -/
lemma attackPhase_tags {cfg : Config} {nb : Option ℕ} {rir : List ℚ}
    {env : Env} :
    ∀ e ∈ (attackPhase cfg nb rir env).1,
      e.isReadRir = false ∧ (e.isApplyRir = true → e.rirValue = some rir) := by
  intro e he
  simp only [attackPhase] at he
  rcases List.mem_append.mp he with hsf | htail0
  · rcases List.mem_append.mp hsf with hsetup | hflat
    · by_cases hP : cfg.attackType = some "preloaded"
      · rw [if_pos hP] at hsetup
        rcases List.mem_singleton.mp hsetup with rfl
        exact ⟨rfl, by intro h; cases h⟩
      · rw [if_neg hP] at hsetup
        rcases List.mem_append.mp hsetup with h2 | hT2
        · rcases List.mem_cons.mp h2 with rfl | h3
          · exact ⟨rfl, by intro h; cases h⟩
          · rcases List.mem_singleton.mp h3 with rfl
            exact ⟨rfl, by intro h; cases h⟩
        · by_cases hT : cfg.targeted = true
          · rw [if_pos hT] at hT2
            rcases List.mem_singleton.mp hT2 with rfl
            exact ⟨rfl, by intro h; cases h⟩
          · rw [if_neg hT] at hT2
            cases hT2
    · obtain ⟨l, hl, hel⟩ := List.mem_flatten.mp hflat
      obtain ⟨p, hp, rfl⟩ := List.mem_map.mp hl
      by_cases hP : cfg.attackType = some "preloaded"
      · rw [if_pos hP] at hp
        obtain ⟨b, _, rfl⟩ := List.mem_map.mp hp
        exact attackBatchPre_tags _ hel
      · rw [if_neg hP] at hp
        obtain ⟨b, _, rfl⟩ := List.mem_map.mp hp
        exact attackBatchGen_tags _ hel
  · rcases List.mem_cons.mp htail0 with rfl | htail
    · exact ⟨rfl, by intro h; cases h⟩
    · by_cases hT : cfg.targeted = true
      · rw [if_pos hT] at htail
        rcases List.mem_singleton.mp htail with rfl
        exact ⟨rfl, by intro h; cases h⟩
      · rw [if_neg hT] at htail
        cases htail

/-- After a successful channel injection, the trace of `_evaluate` (for
`skip_misclassified = False`) always consists of the pre-phase events,
then the single RIR-file read of file index `1001`, then phase events that
never read a RIR file and only ever apply the RIR stored at index `1001`. -/
lemma evaluate_trace_shape {cfg : Config} {nb : Option ℕ} {sb sa : Bool}
    {env : Env} {ch : List Event} (hch : channelInjection cfg = .ok ch) :
    ∃ tail : List Event,
      (evaluate cfg nb sb sa false env).1
        = Event.loadModel ::
            ((ch ++ defenseInternalEvents cfg ++ fitEvents cfg ++ transformEvents cfg)
              ++ Event.readRirFile 1001 :: tail) ∧
      ∀ e ∈ tail, e.isReadRir = false ∧
        (e.isApplyRir = true → e.rirValue = some (env.rirData 1001)) := by
  have hbp : ∀ e ∈ (if sb = true then (([] : List Event), ([] : List TaskUpdate))
      else benignPhase (env.rirData 1001) env (takeBatches nb env.benignData)).1,
      e.isReadRir = false ∧
        (e.isApplyRir = true → e.rirValue = some (env.rirData 1001)) := by
    by_cases hsb : sb = true
    · rw [if_pos hsb]
      intro e he
      cases he
    · rw [if_neg hsb]
      intro e he
      have htags := benignPhase_tags e he
      exact ⟨htags.1, htags.2.2⟩
  by_cases hsa : sa = true
  · refine ⟨_, ?_, hbp⟩
    subst hsa
    simp [evaluate, hch, Readrir]
  · rw [Bool.not_eq_true] at hsa
    subst hsa
    by_cases hadv : cfg.skipAdversarial = true
    · refine ⟨_, ?_, hbp⟩
      simp [evaluate, hch, hadv, Readrir]
    · refine ⟨(if sb = true then (([] : List Event), ([] : List TaskUpdate))
          else benignPhase (env.rirData 1001) env (takeBatches nb env.benignData)).1
            ++ (attackPhase cfg nb (env.rirData 1001) env).1, ?_, ?_⟩
      · simp [evaluate, hch, hadv, Readrir]
      · intro e he
        rcases List.mem_append.mp he with hb | ha
        · exact hbp e hb
        · exact attackPhase_tags e ha

/-! ## Claim theorems -/

/-- Claim C1 (behaviour of the code at the failing input): `create_speech_rir`
does not guard the normalization against a zero-energy waveform — on the
all-zero input every sample of `ret` is `0`, `np.amax(np.absolute(ret)) = 0`,
and the division produces NaN (`none`) in every output sample, instead of
returning silence or skipping normalization. -/
theorem create_speech_rir_zero_input_nan :
    create_speech_rir [[0, 0, 0]] [1] = [[none, none, none]] := by
  norm_num [create_speech_rir, apply_rir_single, conv, maxAbs, rirNormalize, rirScale,
    rirClip, rirPad, normSamp, clip16, int16Scale, List.range_succ, List.take_succ_cons]

/-- Claim C2 as stated is false: convolving the one-sample waveform `[1.0]`
with the single-sample RIR `[1.0]` returns `[32767.0]` (the normalization
rescales to int16 full scale), not the input `[1.0]`. -/
theorem create_speech_rir_impulse_counterexample :
    create_speech_rir [[(1 : ℚ)]] [(1 : ℚ)] ≠ [[some (1 : ℚ)]] := by
  have h : create_speech_rir [[(1 : ℚ)]] [(1 : ℚ)] = [[some 32767]] := by
    norm_num [create_speech_rir, apply_rir_single, conv, maxAbs, rirNormalize, rirScale,
      rirClip, rirPad, normSamp, clip16, int16Scale, List.range_succ, List.take_succ_cons]
  rw [h]
  intro hc
  norm_num at hc

/-- Claim C2 (amended): for a batch whose waveforms each have a nonzero
sample, `create_speech_rir` with the single-sample RIR `[1.0]` returns each
waveform rescaled to int16 full scale — sample `v` becomes
`v / max |x| * 32767` — rather than the waveform itself. -/
theorem create_speech_rir_impulse_rescales (audios : List (List ℚ))
    (h : ∀ x ∈ audios, ∃ v ∈ x, v ≠ 0) :
    create_speech_rir audios [1]
      = audios.map (fun x => x.map (fun v => some (v / maxAbs x * int16Scale))) := by
  unfold create_speech_rir
  apply List.map_congr_left
  intro x hx
  exact apply_rir_single_impulse x (h x hx)

/-- Witness for C2 (amended) at the concrete batch `[[1, -2]]`. -/
theorem create_speech_rir_impulse_rescales_witness :
    (∀ x ∈ [[(1 : ℚ), -2]], ∃ v ∈ x, v ≠ 0) ∧
      create_speech_rir [[(1 : ℚ), -2]] [1]
        = [[(1 : ℚ), -2]].map (fun x => x.map (fun v => some (v / maxAbs x * int16Scale))) := by
  have hx : ∀ x ∈ [[(1 : ℚ), -2]], ∃ v ∈ x, v ≠ 0 := by
    intro x hx
    rcases List.mem_singleton.mp hx with rfl
    exact ⟨1, by simp, one_ne_zero⟩
  exact ⟨hx, create_speech_rir_impulse_rescales _ hx⟩

/-- Claim C3: for a batch of nonempty waveforms and a nonempty RIR, the
output batch of `create_speech_rir` has the same number of waveforms, and
each output waveform has exactly the length of the corresponding input
waveform (the 100000-sample zero pad followed by `ret[:s1]` always yields
the input length). -/
theorem create_speech_rir_length (audios : List (List ℚ)) (rir : List ℚ)
    (i : ℕ) (hi : i < audios.length) (h1 : 1 ≤ (audios.getD i []).length)
    (h2 : 1 ≤ rir.length) :
    (create_speech_rir audios rir).length = audios.length ∧
      ((create_speech_rir audios rir).getD i []).length = (audios.getD i []).length := by
  constructor
  · simp [create_speech_rir]
  · have hi' : i < (create_speech_rir audios rir).length := by
      simpa [create_speech_rir] using hi
    rw [List.getD_eq_getElem _ _ hi', List.getD_eq_getElem _ _ hi]
    rw [List.getD_eq_getElem _ _ hi] at h1
    simp only [create_speech_rir, List.getElem_map]
    exact apply_rir_single_length _ _ h1 h2

/-- Witness for C3 at the batch `[[3]]` and the RIR `[2]`. -/
theorem create_speech_rir_length_witness :
    0 < ([[(3 : ℚ)]] : List (List ℚ)).length ∧
      1 ≤ (([[(3 : ℚ)]] : List (List ℚ)).getD 0 []).length ∧
      1 ≤ [(2 : ℚ)].length ∧
      ((create_speech_rir [[(3 : ℚ)]] [(2 : ℚ)]).length
          = ([[(3 : ℚ)]] : List (List ℚ)).length ∧
        ((create_speech_rir [[(3 : ℚ)]] [(2 : ℚ)]).getD 0 []).length
          = (([[(3 : ℚ)]] : List (List ℚ)).getD 0 []).length) :=
  ⟨by decide, by decide, by decide,
    create_speech_rir_length [[(3 : ℚ)]] [(2 : ℚ)] 0 (by decide) (by decide) (by decide)⟩

/-- Claim C4: `skip_misclassified = True` makes `_evaluate` raise the
configuration `ValueError` before any other work — the trace is empty: no
model load, no dataset load, no data touched. -/
theorem evaluate_skip_misclassified (cfg : Config) (nb : Option ℕ)
    (sb sa : Bool) (env : Env) :
    evaluate cfg nb sb sa true env
      = ([], .error "skip_misclassified must not be set for ASR scenario") := by
  simp [evaluate]

/-- Claim C6: with `delay == 0` or `attenuation == 0` (and a nonnegative
delay), `load_audio_channel` returns the identity filter — numerator `[1.0]`
and denominator `[1.0]` — with a warning-level diagnostic, not an error. -/
theorem load_audio_channel_identity (delay : ℤ) (attenuation : ℚ)
    (h0 : 0 ≤ delay) (h : delay = 0 ∨ attenuation = 0) :
    load_audio_channel delay attenuation
      = .ok (⟨[1], [1]⟩, [ChannelWarning.identityChannel]) := by
  unfold load_audio_channel
  rw [if_neg (by omega), if_pos h]

/-- Witness for C6 at `delay = 0`, `attenuation = 1/2`. -/
theorem load_audio_channel_identity_witness :
    (0 : ℤ) ≤ 0 ∧ ((0 : ℤ) = 0 ∨ (1 / 2 : ℚ) = 0) ∧
      load_audio_channel 0 (1 / 2)
        = .ok (⟨[1], [1]⟩, [ChannelWarning.identityChannel]) :=
  ⟨le_refl 0, Or.inl rfl, load_audio_channel_identity 0 (1 / 2) (le_refl 0) (Or.inl rfl)⟩

/-- Claim C7: with `delay = d > 0` and `attenuation = a ≠ 0`,
`load_audio_channel` builds a numerator of length `d + 1` with exactly the
two taps `numerator[0] = 1.0` and `numerator[d] = a` (zero elsewhere), and
the identity denominator `[1, 0, ..., 0]` of the same length (purely FIR). -/
theorem load_audio_channel_echo (d : ℕ) (a : ℚ) (hd : 0 < d) (ha : a ≠ 0) :
    ∃ f w, load_audio_channel (d : ℤ) a = .ok (f, w) ∧
      f.numerator_coef.length = d + 1 ∧
      f.numerator_coef.getD 0 0 = 1 ∧
      f.numerator_coef.getD d 0 = a ∧
      (∀ i, i < d + 1 → i ≠ 0 → i ≠ d → f.numerator_coef.getD i 0 = 0) ∧
      f.denominator_coef = (1 : ℚ) :: List.replicate d 0 := by
  have hneg : ¬((d : ℤ) < 0) := not_lt.mpr (Int.natCast_nonneg d)
  have hz : ¬((d : ℤ) = 0 ∨ a = 0) := by
    push_neg
    exact ⟨by exact_mod_cast hd.ne', ha⟩
  have htn : ((d : ℤ)).toNat = d := Int.toNat_natCast d
  unfold load_audio_channel
  rw [if_neg hneg, if_neg hz]
  simp only [htn]
  refine ⟨_, _, rfl, ?_, ?_, ?_, ?_, ?_⟩
  · simp
  · rw [getD_set_ne _ _ _ _ _ (by omega), getD_set_self _ _ _ _ (by simp)]
  · rw [getD_set_self _ _ _ _ (by simp)]
  · intro i hi1 hi2 hi3
    rw [getD_set_ne _ _ _ _ _ (by omega), getD_set_ne _ _ _ _ _ (by omega),
      getD_replicate_lt _ _ _ _ hi1]
  · rw [List.replicate_succ]
    rfl

/-- Witness for C7 at `d = 2`, `a = 1/2`. -/
theorem load_audio_channel_echo_witness :
    0 < 2 ∧ (1 / 2 : ℚ) ≠ 0 ∧
      (∃ f w, load_audio_channel ((2 : ℕ) : ℤ) (1 / 2 : ℚ) = .ok (f, w) ∧
        f.numerator_coef.length = 2 + 1 ∧
        f.numerator_coef.getD 0 0 = 1 ∧
        f.numerator_coef.getD 2 0 = 1 / 2 ∧
        (∀ i, i < 2 + 1 → i ≠ 0 → i ≠ 2 → f.numerator_coef.getD i 0 = 0) ∧
        f.denominator_coef = (1 : ℚ) :: List.replicate 2 0) :=
  ⟨by norm_num, by norm_num,
    load_audio_channel_echo 2 (1 / 2) (by norm_num) (by norm_num)⟩

/-- Claim C9: `create_speech_rir` never writes any pre-existing buffer — in
particular every waveform of the input batch (and the RIR) reads back
unchanged after the call — and every output waveform is backed by a freshly
allocated buffer. -/
theorem create_speech_rir_frame (h : Heap) (audioIdxs : List ℕ)
    (rirIdx j : ℕ) (hj : j < h.length) :
    ((create_speech_rir_heap h audioIdxs rirIdx).1).readBuf j = h.readBuf j ∧
      ∀ o ∈ (create_speech_rir_heap h audioIdxs rirIdx).2, h.length ≤ o := by
  obtain ⟨hf, _, ho⟩ := create_speech_rir_heap_spec rirIdx audioIdxs h
  exact ⟨hf j hj, ho⟩

/-- Witness for C9: a two-buffer heap (one audio waveform, one RIR). -/
theorem create_speech_rir_frame_witness :
    0 < ([[some 1], [some 2]] : Heap).length ∧
      (Heap.readBuf ((create_speech_rir_heap [[some 1], [some 2]] [0] 1).1) 0
          = Heap.readBuf [[some 1], [some 2]] 0 ∧
        ∀ o ∈ (create_speech_rir_heap [[some 1], [some 2]] [0] 1).2,
          ([[some 1], [some 2]] : Heap).length ≤ o) :=
  ⟨by decide, create_speech_rir_frame [[some 1], [some 2]] [0] 1 0 (by decide)⟩

/-- Claim C10: a negative (converted) delay makes `load_audio_channel`
raise the `ValueError` naming the non-negativity requirement, before any
filter is constructed, for every attenuation. -/
theorem load_audio_channel_negative_delay (delay : ℤ) (attenuation : ℚ)
    (h : delay < 0) :
    load_audio_channel delay attenuation = .error (delayErrorMsg delay) := by
  unfold load_audio_channel
  rw [if_pos h]

/-- Witness for C10 at `delay = -1`, `attenuation = 7`. -/
theorem load_audio_channel_negative_delay_witness :
    (-1 : ℤ) < 0 ∧
      load_audio_channel (-1) 7 = .error (delayErrorMsg (-1)) :=
  ⟨by norm_num, load_audio_channel_negative_delay (-1) 7 (by norm_num)⟩

/-- Claim C5: when `skip_attack` is set, or the ad-hoc `skip_adversarial`
flag is set, `_evaluate` returns the accumulated benign-only results
immediately after the benign phase: the trace contains no attack
construction, no attack generation and no adversarial-dataset load, and the
returned metrics state has no adversarial task update and no perturbation
update. -/
theorem evaluate_skip_attack_benign_only (cfg : Config) (nb : Option ℕ)
    (sb sa : Bool) (env : Env)
    (h : sa = true ∨ cfg.skipAdversarial = true) :
    (∀ e ∈ (evaluate cfg nb sb sa false env).1, e.isAttackWork = false) ∧
      ∀ st, (evaluate cfg nb sb sa false env).2 = .ok st →
        (∀ u ∈ st.taskUpdates, u.adversarial = false) ∧
          st.perturbationUpdates = 0 := by
  cases hch : channelInjection cfg with
  | error msg =>
    have hev : evaluate cfg nb sb sa false env = ([Event.loadModel], .error msg) := by
      simp [evaluate, hch]
    rw [hev]
    refine ⟨?_, ?_⟩
    · intro e he
      rcases List.mem_singleton.mp he with rfl
      rfl
    · intro st hst
      exact absurd hst (by simp)
  | ok ch =>
    have hev : evaluate cfg nb sb sa false env
        = (Event.loadModel ::
            ((ch ++ defenseInternalEvents cfg ++ fitEvents cfg ++ transformEvents cfg)
              ++ Event.readRirFile 1001 ::
                (if sb = true then (([] : List Event), ([] : List TaskUpdate))
                 else benignPhase (env.rirData 1001) env
                   (takeBatches nb env.benignData)).1),
           .ok ⟨(if sb = true then (([] : List Event), ([] : List TaskUpdate))
                 else benignPhase (env.rirData 1001) env
                   (takeBatches nb env.benignData)).2, 0⟩) := by
      rcases h with hsa | hadv
      · subst hsa
        simp [evaluate, hch, Readrir]
      · by_cases hsa : sa = true
        · subst hsa
          simp [evaluate, hch, Readrir]
        · rw [Bool.not_eq_true] at hsa
          subst hsa
          simp [evaluate, hch, hadv, Readrir]
    rw [hev]
    refine ⟨?_, ?_⟩
    · intro e he
      rcases List.mem_cons.mp he with rfl | he2
      · rfl
      · rcases List.mem_append.mp he2 with hpre | hrest
        · exact (pre_trace_tags hch e (List.mem_cons_of_mem _ hpre)).2.2
        · rcases List.mem_cons.mp hrest with rfl | hb
          · rfl
          · by_cases hsb : sb = true
            · rw [if_pos hsb] at hb
              cases hb
            · rw [if_neg hsb] at hb
              exact (benignPhase_tags e hb).2.1
    · intro st hst
      cases Except.ok.inj hst
      refine ⟨?_, rfl⟩
      intro u hu
      by_cases hsb : sb = true
      · rw [if_pos hsb] at hu
        cases hu
      · rw [if_neg hsb] at hu
        exact benignPhase_updates u hu

/-- Witness for C5: the minimal configuration with `skip_attack = true`. -/
theorem evaluate_skip_attack_benign_only_witness :
    (true = true ∨ cfgW.skipAdversarial = true) ∧
      ((∀ e ∈ (evaluate cfgW none false true false envW).1, e.isAttackWork = false) ∧
        ∀ st, (evaluate cfgW none false true false envW).2 = .ok st →
          (∀ u ∈ st.taskUpdates, u.adversarial = false) ∧
            st.perturbationUpdates = 0) :=
  ⟨Or.inl rfl, evaluate_skip_attack_benign_only cfgW none false true envW (Or.inl rfl)⟩

/-- Claim C8: in every run that returns results, the RIR is loaded exactly
once, from file index `Readrir 0 = 0 + 1000 + 1 = 1001`, before any RIR
application (hence before both phases); `Readrir k` always resolves to file
index `k + 1001`; and every RIR application in the whole run — benign phase
and attack phase alike — uses exactly the RIR stored at index `1001`. -/
theorem evaluate_rir_loaded_once (cfg : Config) (nb : Option ℕ)
    (sb sa sm : Bool) (env : Env) (tr : List Event) (st : MetricsState)
    (h : evaluate cfg nb sb sa sm env = (tr, .ok st)) :
    (∀ k, Readrir k = k + 1001) ∧
      (∃ t1 t2, tr = t1 ++ Event.readRirFile 1001 :: t2 ∧
        (∀ e ∈ t1, e.isReadRir = false ∧ e.isApplyRir = false) ∧
        (∀ e ∈ t2, e.isReadRir = false)) ∧
      ∀ e ∈ tr, e.isApplyRir = true → e.rirValue = some (env.rirData 1001) := by
  have hA : ∀ k, Readrir k = k + 1001 := by
    intro k
    unfold Readrir
    omega
  by_cases hsm : sm = true
  · subst hsm
    simp [evaluate] at h
  rw [Bool.not_eq_true] at hsm
  subst hsm
  cases hch : channelInjection cfg with
  | error msg =>
    simp [evaluate, hch] at h
  | ok ch =>
    obtain ⟨tail, htr, htail⟩ :=
      @evaluate_trace_shape cfg nb sb sa env ch hch
    have htr' : tr = Event.loadModel ::
        ((ch ++ defenseInternalEvents cfg ++ fitEvents cfg ++ transformEvents cfg)
          ++ Event.readRirFile 1001 :: tail) := by
      have hfst : (evaluate cfg nb sb sa false env).1 = tr := by rw [h]
      rw [← hfst, htr]
    refine ⟨hA,
      ⟨Event.loadModel ::
          (ch ++ defenseInternalEvents cfg ++ fitEvents cfg ++ transformEvents cfg),
        tail, ?_, ?_, ?_⟩, ?_⟩
    · rw [htr']
      rfl
    · intro e he
      have htags := pre_trace_tags hch e he
      exact ⟨htags.1, htags.2.1⟩
    · intro e he
      exact (htail e he).1
    · intro e he hap
      rw [htr'] at he
      rcases List.mem_cons.mp he with rfl | he2
      · cases hap
      · rcases List.mem_append.mp he2 with hpre | hrest
        · have htags := pre_trace_tags hch e (List.mem_cons_of_mem _ hpre)
          rw [htags.2.1] at hap
          cases hap
        · rcases List.mem_cons.mp hrest with rfl | htl
          · cases hap
          · exact (htail e htl).2 hap

/-- Witness for C8: the minimal configuration and environment, one benign
batch, attack skipped; the concrete trace reads RIR file `1001` exactly
once and applies its waveform `[1]` once. -/
theorem evaluate_rir_loaded_once_witness :
    (∀ k, Readrir k = k + 1001) ∧
      (∃ t1 t2,
        [Event.loadModel, Event.readRirFile 1001, Event.loadTestDataset,
          Event.applyRir [1], Event.predictCall false,
          Event.updateTaskEvent false false, Event.logTaskEvent false false]
            = t1 ++ Event.readRirFile 1001 :: t2 ∧
        (∀ e ∈ t1, e.isReadRir = false ∧ e.isApplyRir = false) ∧
        (∀ e ∈ t2, e.isReadRir = false)) ∧
      ∀ e ∈ [Event.loadModel, Event.readRirFile 1001, Event.loadTestDataset,
          Event.applyRir [1], Event.predictCall false,
          Event.updateTaskEvent false false, Event.logTaskEvent false false],
        e.isApplyRir = true → e.rirValue = some (envW.rirData 1001) :=
  evaluate_rir_loaded_once cfgW none false true false envW
    [Event.loadModel, Event.readRirFile 1001, Event.loadTestDataset,
      Event.applyRir [1], Event.predictCall false,
      Event.updateTaskEvent false false, Event.logTaskEvent false false]
    ⟨[⟨5, 0, false, false⟩], 0⟩
    (by simp [evaluate, cfgW, envW, channelInjection, defenseInternalEvents,
      fitEvents, transformEvents, benignPhase, benignBatch, takeBatches, Readrir])
